import Mathlib

/-!
Verification of the npm-dependency-finder search engine (the registry-driven
variant in `src/components/PackageVersionFinder.tsx`, which the specification
declares canonical, together with the HTTP route validation in
`app/api/search/route.ts`).

The embedding models version strings structurally: a published registry
version is a full semantic version (`SemVer`), while a user-supplied
minimum version may have fewer than three dot components (`UserVersion`),
mirroring the source's `normalizeVersion` right-padding.  Network effects
are modelled by threading a `NetState` (metadata cache, resolution cache and
a fetch counter) through every operation, with the registry itself a pure
function `String → Option RegistryPackageMeta` (`none` models a failed
HTTP fetch, which the source surfaces as a thrown `Error`).
-/

/-- A semver pre-release identifier: numeric identifiers compare numerically
and below alphanumeric ones, alphanumeric identifiers compare in ASCII
order. -/
inductive PreId where
  | num (n : Nat)
  | str (s : String)
deriving DecidableEq

/-- A full semantic version as published in a registry: three numeric
components plus an optional pre-release tag (`pre = []` means a stable
release). -/
structure SemVer where
  major : Nat
  minor : Nat
  patch : Nat
  pre : List PreId
deriving DecidableEq

/-- Three-way comparison derived from a linear order. -/
def lcmp {α : Type} [LinearOrder α] (a b : α) : Ordering :=
  if a < b then Ordering.lt else if b < a then Ordering.gt else Ordering.eq

theorem lcmp_eq_lt {α : Type} [LinearOrder α] {a b : α} :
    lcmp a b = Ordering.lt ↔ a < b := by
  unfold lcmp
  split_ifs with h h'
  · simp [h]
  · simp [h]
  · simp [h]

theorem lcmp_eq_gt {α : Type} [LinearOrder α] {a b : α} :
    lcmp a b = Ordering.gt ↔ b < a := by
  unfold lcmp
  split_ifs with h h'
  · simp [lt_asymm h]
  · simp [h']
  · simp [h']

theorem lcmp_eq_eq {α : Type} [LinearOrder α] {a b : α} :
    lcmp a b = Ordering.eq ↔ a = b := by
  unfold lcmp
  split_ifs with h h'
  · simp [ne_of_lt h]
  · simp [(ne_of_lt h').symm]
  · simp [le_antisymm (le_of_not_lt h') (le_of_not_lt h)]

theorem lcmp_swap {α : Type} [LinearOrder α] (a b : α) :
    (lcmp a b).swap = lcmp b a := by
  unfold lcmp
  rcases lt_trichotomy a b with h | h | h
  · rw [if_pos h, if_neg (lt_asymm h), if_pos h]
    rfl
  · subst h
    simp [lt_irrefl]
    rfl
  · rw [if_neg (lt_asymm h), if_pos h, if_pos h]
    rfl

theorem lcmp_lt_trans {α : Type} [LinearOrder α] {a b c : α} :
    lcmp a b = Ordering.lt → lcmp b c = Ordering.lt → lcmp a c = Ordering.lt := by
  simp only [lcmp_eq_lt]
  exact lt_trans

/-- Comparison of single pre-release identifiers (numeric below
alphanumeric, as semver prescribes). -/
def comparePreId : PreId → PreId → Ordering
  | PreId.num m, PreId.num n => lcmp m n
  | PreId.num _, PreId.str _ => Ordering.lt
  | PreId.str _, PreId.num _ => Ordering.gt
  | PreId.str s, PreId.str t => lcmp s t

/-- Lexicographic comparison of two non-empty pre-release identifier lists;
a strict prefix compares below its extensions. -/
def comparePreList : List PreId → List PreId → Ordering
  | [], [] => Ordering.eq
  | [], _ :: _ => Ordering.lt
  | _ :: _, [] => Ordering.gt
  | p :: ps, q :: qs => (comparePreId p q).then (comparePreList ps qs)

/-- Pre-release field comparison at the version level: a release (empty
field) compares above every pre-release. -/
def comparePre : List PreId → List PreId → Ordering
  | [], [] => Ordering.eq
  | [], _ :: _ => Ordering.gt
  | _ :: _, [] => Ordering.lt
  | p :: ps, q :: qs => (comparePreId p q).then (comparePreList ps qs)

/-- Semantic-version precedence, the `semver.compare` of the source. -/
def semverCompare (a b : SemVer) : Ordering :=
  (lcmp a.major b.major).then
    ((lcmp a.minor b.minor).then
      ((lcmp a.patch b.patch).then (comparePre a.pre b.pre)))

/-- Strict `semver.lt`. -/
def semverLtB (a b : SemVer) : Bool := semverCompare a b == Ordering.lt

/-- Non-strict `semver.lte` / `semver.gte` with arguments flipped. -/
def semverLeB (a b : SemVer) : Bool := !(semverCompare a b == Ordering.gt)

theorem comparePreId_eq_eq {p q : PreId} :
    comparePreId p q = Ordering.eq ↔ p = q := by
  cases p <;> cases q <;> simp [comparePreId, lcmp_eq_eq]

theorem comparePreId_swap (p q : PreId) :
    (comparePreId p q).swap = comparePreId q p := by
  cases p <;> cases q <;> simp [comparePreId, lcmp_swap] <;> rfl

theorem comparePreId_lt_trans {p q r : PreId} :
    comparePreId p q = Ordering.lt → comparePreId q r = Ordering.lt →
      comparePreId p r = Ordering.lt := by
  cases p <;> cases q <;> cases r <;>
    simp [comparePreId, lcmp_eq_lt] <;> exact lt_trans

theorem comparePreList_eq_eq : ∀ {ps qs : List PreId},
    comparePreList ps qs = Ordering.eq ↔ ps = qs
  | [], [] => by simp [comparePreList]
  | [], _ :: _ => by simp [comparePreList]
  | _ :: _, [] => by simp [comparePreList]
  | p :: ps, q :: qs => by
    simp [comparePreList, Ordering.then_eq_eq, comparePreId_eq_eq,
      comparePreList_eq_eq]

theorem comparePreList_swap : ∀ (ps qs : List PreId),
    (comparePreList ps qs).swap = comparePreList qs ps
  | [], [] => rfl
  | [], _ :: _ => rfl
  | _ :: _, [] => rfl
  | p :: ps, q :: qs => by
    simp [comparePreList, Ordering.swap_then, comparePreId_swap,
      comparePreList_swap ps qs]

theorem comparePreList_lt_trans : ∀ {ps qs rs : List PreId},
    comparePreList ps qs = Ordering.lt → comparePreList qs rs = Ordering.lt →
      comparePreList ps rs = Ordering.lt
  | [], [], _ :: _, _, _ => rfl
  | [], _ :: _, _ :: _, _, _ => rfl
  | [], [], [], h, _ => by cases h
  | [], _ :: _, [], _, h => by cases h
  | _ :: _, [], _, h, _ => by cases h
  | _ :: _, _ :: _, [], _, h => by cases h
  | p :: ps, q :: qs, r :: rs, h₁, h₂ => by
    rw [comparePreList, Ordering.then_eq_lt] at h₁ h₂ ⊢
    rcases h₁ with h₁ | ⟨h₁e, h₁l⟩
    · rcases h₂ with h₂ | ⟨h₂e, h₂l⟩
      · exact Or.inl (comparePreId_lt_trans h₁ h₂)
      · exact Or.inl ((comparePreId_eq_eq.mp h₂e) ▸ h₁)
    · rcases h₂ with h₂ | ⟨h₂e, h₂l⟩
      · exact Or.inl ((comparePreId_eq_eq.mp h₁e) ▸ h₂)
      · exact Or.inr ⟨(comparePreId_eq_eq.mp h₁e) ▸ h₂e,
          comparePreList_lt_trans h₁l h₂l⟩

theorem comparePre_eq_eq : ∀ {ps qs : List PreId},
    comparePre ps qs = Ordering.eq ↔ ps = qs
  | [], [] => by simp [comparePre]
  | [], _ :: _ => by simp [comparePre]
  | _ :: _, [] => by simp [comparePre]
  | p :: ps, q :: qs => by
    simp [comparePre, Ordering.then_eq_eq, comparePreId_eq_eq,
      comparePreList_eq_eq]

theorem comparePre_swap : ∀ (ps qs : List PreId),
    (comparePre ps qs).swap = comparePre qs ps
  | [], [] => rfl
  | [], _ :: _ => rfl
  | _ :: _, [] => rfl
  | p :: ps, q :: qs => by
    simp [comparePre, Ordering.swap_then, comparePreId_swap,
      comparePreList_swap ps qs]

theorem comparePre_lt_trans : ∀ {ps qs rs : List PreId},
    comparePre ps qs = Ordering.lt → comparePre qs rs = Ordering.lt →
      comparePre ps rs = Ordering.lt
  | [], [], _, h, _ => by cases h
  | [], _ :: _, _, h, _ => by cases h
  | _ :: _, [], [], _, h => by cases h
  | _ :: _, [], _ :: _, _, h => by cases h
  | _ :: _, _ :: _, [], _, _ => rfl
  | p :: ps, q :: qs, r :: rs, h₁, h₂ => by
    rw [comparePre, Ordering.then_eq_lt] at h₁ h₂ ⊢
    rcases h₁ with h₁ | ⟨h₁e, h₁l⟩
    · rcases h₂ with h₂ | ⟨h₂e, h₂l⟩
      · exact Or.inl (comparePreId_lt_trans h₁ h₂)
      · exact Or.inl ((comparePreId_eq_eq.mp h₂e) ▸ h₁)
    · rcases h₂ with h₂ | ⟨h₂e, h₂l⟩
      · exact Or.inl ((comparePreId_eq_eq.mp h₁e) ▸ h₂)
      · exact Or.inr ⟨(comparePreId_eq_eq.mp h₁e) ▸ h₂e,
          comparePreList_lt_trans h₁l h₂l⟩

theorem semverCompare_eq_eq {a b : SemVer} :
    semverCompare a b = Ordering.eq ↔ a = b := by
  obtain ⟨a1, a2, a3, a4⟩ := a
  obtain ⟨b1, b2, b3, b4⟩ := b
  simp [semverCompare, Ordering.then_eq_eq, lcmp_eq_eq, comparePre_eq_eq,
    SemVer.mk.injEq, and_assoc]

theorem semverCompare_swap (a b : SemVer) :
    (semverCompare a b).swap = semverCompare b a := by
  simp [semverCompare, Ordering.swap_then, lcmp_swap, comparePre_swap]

theorem semverCompare_lt_trans {a b c : SemVer} :
    semverCompare a b = Ordering.lt → semverCompare b c = Ordering.lt →
      semverCompare a c = Ordering.lt := by
  intro h₁ h₂
  simp only [semverCompare, Ordering.then_eq_lt, Ordering.then_eq_eq,
    lcmp_eq_lt, lcmp_eq_eq] at h₁ h₂ ⊢
  rcases h₁ with h₁ | ⟨e₁, h₁⟩
  · rcases h₂ with h₂ | ⟨e₂, _⟩
    · exact Or.inl (lt_trans h₁ h₂)
    · exact Or.inl (e₂ ▸ h₁)
  · rcases h₂ with h₂ | ⟨e₂, h₂⟩
    · exact Or.inl (e₁ ▸ h₂)
    · refine Or.inr ⟨e₁.trans e₂, ?_⟩
      rcases h₁ with h₁ | ⟨f₁, h₁⟩
      · rcases h₂ with h₂ | ⟨f₂, _⟩
        · exact Or.inl (lt_trans h₁ h₂)
        · exact Or.inl (f₂ ▸ h₁)
      · rcases h₂ with h₂ | ⟨f₂, h₂⟩
        · exact Or.inl (f₁ ▸ h₂)
        · refine Or.inr ⟨f₁.trans f₂, ?_⟩
          rcases h₁ with h₁ | ⟨g₁, h₁⟩
          · rcases h₂ with h₂ | ⟨g₂, _⟩
            · exact Or.inl (lt_trans h₁ h₂)
            · exact Or.inl (g₂ ▸ h₁)
          · rcases h₂ with h₂ | ⟨g₂, h₂⟩
            · exact Or.inl (g₁ ▸ h₂)
            · exact Or.inr ⟨g₁.trans g₂, comparePre_lt_trans h₁ h₂⟩

/-- The non-strict semantic-version order as a relation, used for sorting
candidates the way `versions.sort(semver.compare)` does. -/
def svLe (a b : SemVer) : Prop := semverLeB a b = true

instance : DecidableRel svLe := fun a b =>
  inferInstanceAs (Decidable (semverLeB a b = true))

theorem svLe_iff_not_gt {a b : SemVer} :
    svLe a b ↔ semverCompare a b ≠ Ordering.gt := by
  unfold svLe semverLeB
  cases h : semverCompare a b <;> decide

theorem semverLtB_false_iff {a b : SemVer} :
    semverLtB a b = false ↔ svLe b a := by
  unfold semverLtB
  rw [svLe_iff_not_gt, ← semverCompare_swap a b]
  cases h : semverCompare a b <;> decide

theorem semverLtB_true_le {a b : SemVer} (h : semverLtB a b = true) : svLe a b := by
  unfold semverLtB at h
  rw [svLe_iff_not_gt]
  cases hc : semverCompare a b
  · decide
  · decide
  · rw [hc] at h
    exact absurd h (by decide)

instance : IsTotal SemVer svLe := by
  constructor
  intro a b
  rw [svLe_iff_not_gt, svLe_iff_not_gt, ← semverCompare_swap a b]
  cases h : semverCompare a b <;> decide

instance : IsTrans SemVer svLe := by
  constructor
  intro a b c hab hbc
  rw [svLe_iff_not_gt] at hab hbc ⊢
  rcases ha : semverCompare a b with _ | _ | _
  · rcases hb : semverCompare b c with _ | _ | _
    · have := semverCompare_lt_trans ha hb
      simp [this]
    · have := semverCompare_eq_eq.mp hb
      subst this
      simp [ha]
    · exact absurd hb hbc
  · have := semverCompare_eq_eq.mp ha
    subst this
    exact hbc
  · exact absurd ha hab

instance : IsAntisymm SemVer svLe := by
  constructor
  intro a b hab hba
  rw [svLe_iff_not_gt] at hab hba
  rcases ha : semverCompare a b with _ | _ | _
  · rw [← semverCompare_swap a b, ha] at hba
    exact absurd rfl hba
  · exact semverCompare_eq_eq.mp ha
  · exact absurd ha hab

theorem svLe_trans {a b c : SemVer} (h₁ : svLe a b) (h₂ : svLe b c) : svLe a c :=
  IsTrans.trans a b c h₁ h₂

/-! ## Data model of the search engine -/

/-- A user-supplied (possibly shortened) version string: the source's
`normalizeVersion` splits on dots and right-pads with zero segments, so a
well-formed input is one, two or three numeric components, with a
pre-release tag possible only on a full three-component version (otherwise
padding would produce a string `semver` rejects). -/
inductive UserVersion where
  | one (a : Nat)
  | two (a b : Nat)
  | three (a b c : Nat) (pre : List PreId)
deriving DecidableEq

/-- The source's `normalizeVersion`: right-pad to three dot components
("4" becomes "4.0.0", "4.1" becomes "4.1.0").  On a full semantic version
(at least three dot components) it is the identity, which is why registry
versions are represented directly as `SemVer`. -/
def normalizeVersion : UserVersion → SemVer
  | UserVersion.one a => ⟨a, 0, 0, []⟩
  | UserVersion.two a b => ⟨a, b, 0, []⟩
  | UserVersion.three a b c pre => ⟨a, b, c, pre⟩

/-- Does the version carry a pre-release tag (the source's
`semver.prerelease(version)` truthiness)? -/
def isPrereleaseB (v : SemVer) : Bool := !v.pre.isEmpty

/-- A dependency range as it appears in a manifest: an opaque constraint
(`sat` says which concrete versions satisfy it, as `semver.satisfies`
would) together with its literal text, which the source uses to build
resolution-cache keys. -/
structure DepRange where
  sat : SemVer → Bool
  text : String

/-- One published version record of a package: the dependency range maps
the traversal reads (`dependencies`, `optionalDependencies`,
`peerDependencies`). -/
structure VersionRecord where
  dependencies : List (String × DepRange)
  optionalDependencies : List (String × DepRange)
  peerDependencies : List (String × DepRange)

/-- Registry metadata for one package (`RegistryPackageMeta` in the
source): a name and a version-indexed map of version records. -/
structure RegistryPackageMeta where
  name : String
  versions : List (SemVer × VersionRecord)

/-- The npm registry itself, as a pure function: `none` models a fetch
whose response is not ok (the source throws an `Error` in that case). -/
def Registry : Type := String → Option RegistryPackageMeta

/-- The module-level mutable state of the source: `packageMetaCache`,
`versionResolutionCache`, plus a ghost counter of actual network fetches
used to state caching/memoization claims. -/
structure NetState where
  metaCache : List (String × RegistryPackageMeta)
  resCache : List (String × Option SemVer)
  fetchCount : Nat

/-- First-match association-list lookup (the `Map.get` of the source's
caches). -/
def assocFind {β : Type} (k : String) : List (String × β) → Option β
  | [] => none
  | (k', v) :: rest => if k' = k then some v else assocFind k rest

/-- Version lookup inside a manifest (`meta.versions?.[node.version]`). -/
def assocFindV {β : Type} (k : SemVer) : List (SemVer × β) → Option β
  | [] => none
  | (k', v) :: rest => if k' = k then some v else assocFindV k rest

/-- The source's `fetchPackageMetadata`: consult `packageMetaCache` first;
on a miss perform the network fetch, throwing (modelled as `Except.error`)
when the registry answers with a non-ok status, and caching only
successful responses. -/
def fetchPackageMetadata (reg : Registry) (packageName : String) (s : NetState) :
    Except String RegistryPackageMeta × NetState :=
  match assocFind packageName s.metaCache with
  | some meta => (Except.ok meta, s)
  | none =>
    match reg packageName with
    | some meta =>
      (Except.ok meta,
        { s with metaCache := (packageName, meta) :: s.metaCache,
                 fetchCount := s.fetchCount + 1 })
    | none =>
      (Except.error ("Failed to fetch metadata for " ++ packageName),
        { s with fetchCount := s.fetchCount + 1 })

/-- One step of the running-maximum fold inside `semver.maxSatisfying`:
keep the larger of the accumulator and the next version. -/
def maxStep (acc : Option SemVer) (v : SemVer) : Option SemVer :=
  match acc with
  | none => some v
  | some m => if semverLtB m v then some v else some m

/-- The source's `semver.maxSatisfying` as a left fold of `maxStep` over
the satisfying versions. -/
def maxSatisfying (versions : List SemVer) (range : DepRange) : Option SemVer :=
  (versions.filter range.sat).foldl maxStep none

/-- The resolution-cache key, literally `name + "@" + range` in the
source. -/
def resolutionKey (name : String) (range : DepRange) : String :=
  name ++ "@" ++ range.text

/-- The source's `resolveVersion`: memoized by `name@range`; on a miss,
fetch the package metadata, try the maximum satisfying stable version
first, then the maximum satisfying version over all versions
(`includePrerelease`), caching `none` as well — including when the fetch
itself fails (the source's `catch` branch). -/
def resolveVersion (reg : Registry) (name : String) (range : DepRange) (s : NetState) :
    Option SemVer × NetState :=
  let key := resolutionKey name range
  match assocFind key s.resCache with
  | some cached => (cached, s)
  | none =>
    let fetched := fetchPackageMetadata reg name s
    match fetched.1 with
    | Except.error _ =>
      (none, { fetched.2 with resCache := (key, none) :: fetched.2.resCache })
    | Except.ok meta =>
      let allVersions := (meta.versions.map Prod.fst)
      let stable := allVersions.filter (fun v => !isPrereleaseB v)
      let firstTry := maxSatisfying stable range
      let resolved :=
        match firstTry with
        | some m => some m
        | none => maxSatisfying allVersions range
      (resolved, { fetched.2 with resCache := (key, resolved) :: fetched.2.resCache })

/-! ## Dependency-graph traversal -/

/-- Rendering of a pre-release identifier back to its string form. -/
def renderPreId : PreId → String
  | PreId.num n => toString n
  | PreId.str s => s

/-- Dot-joined pre-release tag. -/
def renderPre : List PreId → String
  | [] => ""
  | [p] => renderPreId p
  | p :: rest => renderPreId p ++ "." ++ renderPre rest

/-- Canonical string form of a version, used for `name@version` keys and
path hops exactly as the source's template literals do. -/
def renderVersion (v : SemVer) : String :=
  toString v.major ++ "." ++ toString v.minor ++ "." ++ toString v.patch ++
    (if v.pre.isEmpty then "" else "-" ++ renderPre v.pre)

/-- The `name@version` key used for the traversal's visited set and for
path hops. -/
def nodeKey (name : String) (v : SemVer) : String :=
  name ++ "@" ++ renderVersion v

/-- A queued traversal node (the source's inline queue records).  The
source stores each path hop as the rendered string `name@version`; the
embedding keeps the (name, version) pair and renders it on demand with
`nodeKey`, which produces exactly the source's hop text. -/
structure QNode where
  name : String
  version : SemVer
  path : List (String × SemVer)
deriving DecidableEq

/-- One place the target package occurs in the tree (an entry of the
source's matches array).  The source stores the already-joined
`pathString`; the embedding keeps the hop structure and renders the same
string with `Occurrence.pathString`. -/
structure Occurrence where
  path : List (String × SemVer)
  version : SemVer
deriving DecidableEq

/-- The rendered path line of an occurrence, the source's
`node.path.join(" > ")` with hops `name@version`. -/
def Occurrence.pathString (occ : Occurrence) : String :=
  String.intercalate " > " (occ.path.map (fun hop => nodeKey hop.1 hop.2))

/-- The traversal's result record. -/
structure TraversalResult where
  occMatches : List Occurrence
  visitedCount : Nat
  truncated : Bool
deriving DecidableEq

/-- Ghost log of every node that passed the visited check: which node was
processed, which children it enqueued, and whether it was recorded as a
target occurrence.  The source does not materialize this; it exists to
state the traversal invariants. -/
structure TraceEntry where
  nodeName : String
  nodeVersion : SemVer
  expanded : List QNode
  isMatch : Bool
deriving DecidableEq

/-- Merge of `pkg.dependencies` and `pkg.optionalDependencies` with
JavaScript spread semantics: keys of the first map in order (values
overridden by the second where shared), then the second map's new keys.
`peerDependencies` are intentionally ignored. -/
def mergeDeps (deps opt : List (String × DepRange)) : List (String × DepRange) :=
  deps.map (fun kv =>
    match assocFind kv.fst opt with
    | some r => (kv.fst, r)
    | none => kv) ++
  opt.filter (fun kv => (assocFind kv.fst deps).isNone)

/-- Resolve each dependency edge of a node in order, skipping edges whose
range resolves to nothing, and build the child queue nodes with extended
paths (the source's inner `for` loop). -/
def resolveDeps (reg : Registry) (node : QNode) :
    List (String × DepRange) → NetState → List QNode × NetState
  | [], s => ([], s)
  | (depName, depRange) :: rest, s =>
    let step := resolveVersion reg depName depRange s
    match step.1 with
    | none => resolveDeps reg node rest step.2
    | some v =>
      let tail := resolveDeps reg node rest step.2
      ({ name := depName, version := v,
         path := node.path ++ [(depName, v)] } :: tail.1, tail.2)

/-- The breadth-first loop of `findChildOccurrencesInTree`.  `fuel` is a
pure termination device (the source's `while` loop always terminates
because the visited set is bounded by `maxNodes`); every claim proved
about the loop is either fuel-independent or instantiated with ample
fuel.  Branches mirror the source in order: visited check, node cap
(checked after adding to the visited set, aborting with
`truncated = true`), target match (recorded, never expanded), metadata
fetch failure (swallowed), missing version record (skipped), dependency
expansion. -/
def bfsLoop (reg : Registry) (targetName : String) (maxNodes : Nat) :
    Nat → List QNode → List String → List Occurrence → List TraceEntry → NetState →
      TraversalResult × List TraceEntry × NetState
  | 0, _, visited, occMatches, trace, s =>
    (⟨occMatches, visited.length, false⟩, trace, s)
  | _ + 1, [], visited, occMatches, trace, s =>
    (⟨occMatches, visited.length, false⟩, trace, s)
  | fuel + 1, node :: rest, visited, occMatches, trace, s =>
    let key := nodeKey node.name node.version
    if key ∈ visited then
      bfsLoop reg targetName maxNodes fuel rest visited occMatches trace s
    else
      let visited' := key :: visited
      if maxNodes < visited'.length then
        (⟨occMatches, visited'.length, true⟩, trace, s)
      else if node.name = targetName then
        bfsLoop reg targetName maxNodes fuel rest visited'
          (occMatches ++ [⟨node.path, node.version⟩])
          (trace ++ [⟨node.name, node.version, [], true⟩]) s
      else
        let fetched := fetchPackageMetadata reg node.name s
        match fetched.1 with
        | Except.error _ =>
          bfsLoop reg targetName maxNodes fuel rest visited' occMatches
            (trace ++ [⟨node.name, node.version, [], false⟩]) fetched.2
        | Except.ok meta =>
          match assocFindV node.version meta.versions with
          | none =>
            bfsLoop reg targetName maxNodes fuel rest visited' occMatches
              (trace ++ [⟨node.name, node.version, [], false⟩]) fetched.2
          | some pkg =>
            let expansion :=
              resolveDeps reg node (mergeDeps pkg.dependencies pkg.optionalDependencies)
                fetched.2
            bfsLoop reg targetName maxNodes fuel (rest ++ expansion.1) visited' occMatches
              (trace ++ [⟨node.name, node.version, expansion.1, false⟩]) expansion.2

/-- The source's `findChildOccurrencesInTree`: breadth-first search from
`rootName@rootVersion` with the hard-coded `maxNodes = 3000` guard.  (The
source also receives a `minVersion` parameter it never reads; it is
omitted here.) -/
def findChildOccurrencesInTree (reg : Registry) (fuel : Nat)
    (rootName : String) (rootVersion : SemVer) (targetName : String) (s : NetState) :
    TraversalResult × List TraceEntry × NetState :=
  bfsLoop reg targetName 3000 fuel
    [⟨rootName, rootVersion, [(rootName, rootVersion)]⟩] [] [] [] s

/-! ## Compatibility evaluator -/

/-- Result of the per-candidate analysis. -/
structure DependencyAnalysisResult where
  success : Bool
  message : String
  details : List String
deriving DecidableEq

/-- Result of `analyzeVersionRequirements`. -/
structure VersionAnalysis where
  allValid : Bool
  invalidVersions : List String
deriving DecidableEq

/-- Does `s` end with `suffix` (checked on the character lists)? -/
def strEndsWith (s suffix : String) : Bool :=
  s.data.drop (s.data.length - suffix.data.length) == suffix.data

/-- The version the source's regex
`line.match(new RegExp(childPackage + "@([\d\.]+(?:-[\w\.]+)*)"))`
extracts from a path line.  The regex is unanchored and non-global, so
the leftmost match wins.  A line is ` > `-joined hops `name@version`;
hop names contain no `@`, space or `>` and version texts start with a
digit and contain no `@`, so an occurrence of `childPackage@` lies at a
hop's separator exactly when the child name is a suffix of that hop's
name, and the capture then reads that hop's whole rendered version.  The
extracted version is therefore the version of the FIRST hop whose name
ends with the child package name — which is the occurrence's own version
only when no earlier hop's name has the child name as a suffix (e.g.
parent `webpack-cli` shadows child `cli`). -/
def extractedVersion (childPackage : String) :
    List (String × SemVer) → Option SemVer
  | [] => none
  | hop :: rest =>
    if strEndsWith hop.1 childPackage then some hop.2
    else extractedVersion childPackage rest

/-- The raw text of a user-supplied version, as interpolated into the
source's messages (before normalization). -/
def renderUserVersion : UserVersion → String
  | UserVersion.one a => toString a
  | UserVersion.two a b => toString a ++ "." ++ toString b
  | UserVersion.three a b c pre => renderVersion ⟨a, b, c, pre⟩

/-- Raw text of an optional user version (the empty string when absent),
as the source's template literals interpolate `childMinVersion`. -/
def renderOptUserVersion : Option UserVersion → String
  | none => ""
  | some uv => renderUserVersion uv

/-- The source's `analyzeVersionRequirements`.  It does NOT read the
occurrence's version field: it re-extracts a version from each path line
with the unanchored first-match regex (see `extractedVersion`), skips
lines with no match, and marks a line invalid when the extracted version
is below the normalized minimum.  An absent (empty-string) minimum
version short-circuits the JavaScript `minVersion && semver.lt(...)`
guard, so no line is ever marked invalid in that case.
`versionCheckStep` is the body of the loop for one line. -/
def versionCheckStep (childPackage : String) (minVersion : Option UserVersion)
    (acc : VersionAnalysis) (occ : Occurrence) : VersionAnalysis :=
  match extractedVersion childPackage occ.path with
  | none => acc
  | some depVersion =>
    match minVersion with
    | none => acc
    | some mv =>
      if semverLtB depVersion (normalizeVersion mv) then
        { allValid := false,
          invalidVersions := acc.invalidVersions ++ [occ.pathString] }
      else acc

/-- The loop of the source's `analyzeVersionRequirements` as a fold of
`versionCheckStep` over the occurrence lines. -/
def analyzeVersionRequirements (occs : List Occurrence) (childPackage : String)
    (minVersion : Option UserVersion) : VersionAnalysis :=
  occs.foldl (versionCheckStep childPackage minVersion)
    { allValid := true, invalidVersions := [] }

/-- The pure tail of the source's `analyzePackageDependencies`, taking the
traversal output it destructures.  Note it reads only
`traversal.matches`; `visitedCount` and `truncated` are discarded. -/
def analyzeFromTraversal (traversal : TraversalResult) (parentVersion : SemVer)
    (childPackage : String) (childMinVersion : Option UserVersion)
    (packageRemoved : Bool) : DependencyAnalysisResult :=
  let dependencyLines := traversal.occMatches.map Occurrence.pathString
  if dependencyLines.isEmpty then
    if packageRemoved then
      { success := true,
        message := "✅ SUCCESS: Version " ++ renderVersion parentVersion ++
          " does not depend on '" ++ childPackage ++
          "' anywhere in its dependency tree (package removed condition satisfied).",
        details := ["Package '" ++ childPackage ++ "' is not found in the dependency tree"] }
    else
      { success := false,
        message := "❌ Package '" ++ childPackage ++ "' not found in dependency tree",
        details := [] }
  else if packageRemoved then
    match childMinVersion with
    | some mv =>
      let versionAnalysis := analyzeVersionRequirements traversal.occMatches childPackage
        childMinVersion
      if versionAnalysis.allValid then
        { success := true,
          message := "✅ SUCCESS: Version " ++ renderVersion parentVersion ++
            " - ALL instances of '" ++ childPackage ++
            "' meet the minimum version requirement (>= " ++
            renderUserVersion mv ++
            ") - minimum version condition satisfied.",
          details := dependencyLines }
      else
        { success := false,
          message := "❌ Package '" ++ childPackage ++
            "' exists but doesn't meet minimum version requirement. Need EITHER package removal OR version >= " ++
            renderUserVersion mv ++ ".",
          details := versionAnalysis.invalidVersions }
    | none =>
      { success := false,
        message := "❌ Package '" ++ childPackage ++
          "' still exists in dependency tree (package removal condition not satisfied).",
        details := dependencyLines }
  else
    let versionAnalysis := analyzeVersionRequirements traversal.occMatches childPackage
      childMinVersion
    if versionAnalysis.allValid then
      { success := true,
        message := "✅ SUCCESS: Version " ++ renderVersion parentVersion ++
          " - ALL instances of '" ++ childPackage ++
          "' meet the minimum version requirement (>= " ++
          renderOptUserVersion childMinVersion ++ ").",
        details := dependencyLines }
    else
      { success := false,
        message := "❌ Some instances of '" ++ childPackage ++
          "' are older than required:",
        details := versionAnalysis.invalidVersions }

/-- The source's `analyzePackageDependencies`: run the traversal, then the
pure evaluation of its matches.  (The source receives
`parentPackage@version` as one string and splits it back; the two parts
are passed directly here.) -/
def analyzePackageDependencies (reg : Registry) (fuel : Nat)
    (parentName : String) (parentVersion : SemVer) (childPackage : String)
    (childMinVersion : Option UserVersion) (packageRemoved : Bool) (s : NetState) :
    DependencyAnalysisResult × NetState :=
  let traversal := findChildOccurrencesInTree reg fuel parentName parentVersion childPackage s
  (analyzeFromTraversal traversal.1 parentVersion childPackage childMinVersion packageRemoved,
    traversal.2.2)

/-! ## Search orchestrator -/

/-- The engine's input shape (`SearchParams`).  Empty-string version
fields are `none`. -/
structure SearchParams where
  parentPackage : String
  parentMinVersion : Option UserVersion
  childPackage : String
  childMinVersion : Option UserVersion
  packageRemoved : Bool

/-- The engine's sole output shape (`SearchResult`). -/
structure SearchResult where
  success : Bool
  version : Option SemVer
  message : String
  details : List String
deriving DecidableEq

/-- The all-candidates-exhausted failure result. -/
def noCompatibleResult : SearchResult :=
  { success := false, version := none,
    message := "No compatible version found for the given requirements",
    details := [] }

/-- The stable / pre-release annotation appended to a winning message. -/
def versionTypeTag (stable : Bool) : String :=
  if stable then " (stable release)" else " (pre-release)"

/-- The source's `message.replace(/Version ([^\s]+)/, ...)`: insert the
group tag after the first `Version <token>` occurrence. -/
def enhanceMessage (message tag : String) : String :=
  match message.splitOn "Version " with
  | [] => message
  | [only] => only
  | first :: second :: rest =>
    let tok := second.takeWhile (fun c => c ≠ ' ')
    let remainder := second.drop tok.length
    first ++ "Version " ++ tok ++ tag ++
      String.intercalate "Version " (remainder :: rest)

/-- Does the version pass the parent-minimum floor filter
(`semver.gte(normalizeVersion(version), normalizeVersion(parentMinVersion))`,
with an absent floor passing everything)? -/
def floorOkB (floor : Option UserVersion) (v : SemVer) : Bool :=
  match floor with
  | none => true
  | some f => !semverLtB v (normalizeVersion f)

/-- Ascending semver sort, the source's `versions.sort(semver.compare)` in
`getPackageVersions`. -/
def sortVersions (l : List SemVer) : List SemVer :=
  l.insertionSort svLe

/-- The ordered, group-tagged candidate list the orchestrator iterates:
floor filter, then the stable group before the pre-release group (`true`
tags the stable group). -/
def candidateList (versions : List SemVer) (floor : Option UserVersion) :
    List (SemVer × Bool) :=
  let filteredVersions := versions.filter (floorOkB floor)
  (filteredVersions.filter (fun v => !isPrereleaseB v)).map (fun v => (v, true)) ++
    (filteredVersions.filter isPrereleaseB).map (fun v => (v, false))

/-- The orchestrator's candidate loop: analyze candidates in order,
returning on the first success with the winning version and the
type-annotated message, or the exhausted-failure result. -/
def tryCandidates (reg : Registry) (fuel : Nat) (params : SearchParams) :
    List (SemVer × Bool) → NetState → SearchResult × NetState
  | [], s => (noCompatibleResult, s)
  | (version, isStable) :: rest, s =>
    let step := analyzePackageDependencies reg fuel params.parentPackage version
      params.childPackage params.childMinVersion params.packageRemoved s
    if step.1.success then
      ({ success := true, version := some version,
         message := enhanceMessage step.1.message (versionTypeTag isStable),
         details := step.1.details }, step.2)
    else
      tryCandidates reg fuel params rest step.2

/-- The source's `findCompatibleVersion`, the sole public entry point: the
whole body sits in a `try`/`catch`, so a failure fetching the parent's own
version list becomes an `Error during search` failure result; otherwise
sort, floor-filter, partition into stable/pre-release groups and try the
candidates in order.  It performs no parameter validation. -/
def findCompatibleVersion (reg : Registry) (fuel : Nat) (params : SearchParams)
    (s : NetState) : SearchResult × NetState :=
  let fetched := fetchPackageMetadata reg params.parentPackage s
  match fetched.1 with
  | Except.error e =>
    ({ success := false, version := none,
       message := "Error during search: " ++ e, details := [] }, fetched.2)
  | Except.ok meta =>
    let versions := sortVersions (meta.versions.map Prod.fst)
    if versions.isEmpty then
      ({ success := false, version := none,
         message := "No versions found for package '" ++ params.parentPackage ++ "'",
         details := [] }, fetched.2)
    else
      let filteredVersions := versions.filter (floorOkB params.parentMinVersion)
      if filteredVersions.isEmpty then
        ({ success := false, version := none,
           message := "No versions of '" ++ params.parentPackage ++
             "' found that are >= the requested minimum",
           details := [] }, fetched.2)
      else
        tryCandidates reg fuel params (candidateList versions params.parentMinVersion)
          fetched.2

/-- The HTTP route handler's body (`app/api/search/route.ts` `POST`):
validate the request, answering 400 (`Except.error`) without invoking the
engine when a required field is missing, otherwise run the search. -/
def postSearch (reg : Registry) (fuel : Nat) (body : SearchParams) (s : NetState) :
    Except String SearchResult × NetState :=
  if body.parentPackage = "" ∨ body.childPackage = "" then
    (Except.error "Parent package and child package are required", s)
  else if !body.packageRemoved && body.childMinVersion.isNone then
    (Except.error "Child minimum version is required when package is not marked as removed", s)
  else
    let run := findCompatibleVersion reg fuel body s
    (Except.ok run.1, run.2)

/-! ## Concrete fixtures used by witnesses and counterexamples -/

/-- A version record with no dependencies at all. -/
def recNoDeps : VersionRecord := ⟨[], [], []⟩

/-- The exact range "1.0.0". -/
def rangeEq1 : DepRange := ⟨fun v => v == ⟨1, 0, 0, []⟩, "1.0.0"⟩

/-- The exact range "2.0.0". -/
def rangeEq2 : DepRange := ⟨fun v => v == ⟨2, 0, 0, []⟩, "2.0.0"⟩

/-- The range "1.x": any version with major 1. -/
def rangeMaj1 : DepRange := ⟨fun v => v.major == 1, "1.x"⟩

/-- A record depending on c at exactly 1.0.0. -/
def recDepC1 : VersionRecord := ⟨[("c", rangeEq1)], [], []⟩

/-- A record depending on c at exactly 2.0.0. -/
def recDepC2 : VersionRecord := ⟨[("c", rangeEq2)], [], []⟩

/-- Package a: 1.0.0 pulls c@1.0.0, 1.1.0 pulls c@2.0.0, 1.2.0 has no deps. -/
def metaA : RegistryPackageMeta :=
  ⟨"a", [(⟨1, 0, 0, []⟩, recDepC1), (⟨1, 1, 0, []⟩, recDepC2), (⟨1, 2, 0, []⟩, recNoDeps)]⟩

/-- Package b: 1.0.0 has no deps, 1.1.0 pulls c@1.0.0. -/
def metaB : RegistryPackageMeta :=
  ⟨"b", [(⟨1, 0, 0, []⟩, recNoDeps), (⟨1, 1, 0, []⟩, recDepC1)]⟩

/-- Package c: three published versions, no dependencies. -/
def metaC : RegistryPackageMeta :=
  ⟨"c", [(⟨1, 0, 0, []⟩, recNoDeps), (⟨1, 2, 0, []⟩, recNoDeps), (⟨2, 0, 0, []⟩, recNoDeps)]⟩

/-- A three-package registry; every other name fails to fetch. -/
def regW : Registry := fun n =>
  if n = "a" then some metaA
  else if n = "b" then some metaB
  else if n = "c" then some metaC
  else none

/-- The empty starting state of one invocation. -/
def initState : NetState := ⟨[], [], 0⟩

/-! ## Helper lemmas -/

theorem svLe_refl (a : SemVer) : svLe a a := by
  rw [svLe_iff_not_gt]
  intro h
  have := semverCompare_eq_eq.mpr (rfl : a = a)
  rw [this] at h
  cases h

theorem strEndsWith_self (s : String) : strEndsWith s s = true := by
  unfold strEndsWith
  rw [Nat.sub_self, List.drop_zero]
  exact beq_self_eq_true _

/-- The evaluator's fold: overall validity is the conjunction of the
accumulator's validity and every line whose regex extraction succeeds
meeting the minimum (lines without a match are skipped). -/
theorem analyzeVersionRequirements_allValid_fold (child : String) (mv : UserVersion) :
    ∀ (occs : List Occurrence) (acc : VersionAnalysis),
      (occs.foldl (versionCheckStep child (some mv)) acc).allValid =
      (acc.allValid && occs.all (fun o =>
        match extractedVersion child o.path with
        | none => true
        | some w => !semverLtB w (normalizeVersion mv)))
  | [], acc => by simp
  | o :: rest, acc => by
    rw [List.foldl_cons, List.all_cons, analyzeVersionRequirements_allValid_fold child mv rest]
    cases hE : extractedVersion child o.path with
    | none => simp [versionCheckStep, hE]
    | some w =>
      by_cases h : semverLtB w (normalizeVersion mv) = true
      · simp [versionCheckStep, hE, h]
      · rw [Bool.not_eq_true] at h
        simp [versionCheckStep, hE, h]

theorem analyzeVersionRequirements_allValid_iff {occs : List Occurrence}
    {child : String} {mv : UserVersion} :
    (analyzeVersionRequirements occs child (some mv)).allValid = true ↔
      ∀ o ∈ occs, ∀ w, extractedVersion child o.path = some w →
        svLe (normalizeVersion mv) w := by
  unfold analyzeVersionRequirements
  rw [analyzeVersionRequirements_allValid_fold child mv occs]
  simp only [Bool.true_and, List.all_eq_true]
  constructor
  · intro h o ho w hw
    have ho' := h o ho
    rw [hw] at ho'
    simp only [Bool.not_eq_true'] at ho'
    exact semverLtB_false_iff.mp ho'
  · intro h o ho
    cases hE : extractedVersion child o.path with
    | none => simp
    | some w =>
      simp only [Bool.not_eq_true']
      exact semverLtB_false_iff.mpr (h o ho w hE)

theorem analyzeVersionRequirements_none (occs : List Occurrence) (child : String) :
    analyzeVersionRequirements occs child none =
      { allValid := true, invalidVersions := [] } := by
  unfold analyzeVersionRequirements
  induction occs with
  | nil => rfl
  | cons o rest ih =>
    rw [List.foldl_cons]
    have hstep : versionCheckStep child none { allValid := true, invalidVersions := [] } o =
        { allValid := true, invalidVersions := [] } := by
      unfold versionCheckStep
      cases extractedVersion child o.path <;> rfl
    rw [hstep]
    exact ih

/-- Running maximum over a list starting from a value: the result is an
element (or the start), at least the start, and an upper bound of the
list. -/
theorem foldl_maxStep_spec :
    ∀ (l : List SemVer) (m : SemVer),
      (l.foldl maxStep (some m) = some m ∨
        ∃ m', l.foldl maxStep (some m) = some m' ∧ m' ∈ l) ∧
      (∀ m', l.foldl maxStep (some m) = some m' →
        svLe m m' ∧ ∀ x ∈ l, svLe x m')
  | [], m => by
    refine ⟨Or.inl rfl, ?_⟩
    intro m' hm'
    simp only [List.foldl_nil, Option.some.injEq] at hm'
    subst hm'
    exact ⟨svLe_refl m, by simp⟩
  | v :: rest, m => by
    rw [List.foldl_cons]
    show (rest.foldl maxStep (maxStep (some m) v) = _ ∨ _) ∧ _
    by_cases h : semverLtB m v = true
    · have hstep : maxStep (some m) v = some v := by simp [maxStep, h]
      rw [hstep]
      obtain ⟨hmem, hbound⟩ := foldl_maxStep_spec rest v
      constructor
      · rcases hmem with hmem | ⟨m', hm', hmm⟩
        · exact Or.inr ⟨v, hmem, by simp⟩
        · exact Or.inr ⟨m', hm', by simp [hmm]⟩
      · intro m' hm'
        obtain ⟨hv, hrest⟩ := hbound m' hm'
        refine ⟨svLe_trans (semverLtB_true_le h) hv, ?_⟩
        intro x hx
        rcases List.mem_cons.mp hx with hx | hx
        · exact hx ▸ hv
        · exact hrest x hx
    · rw [Bool.not_eq_true] at h
      have hstep : maxStep (some m) v = some m := by simp [maxStep, h]
      rw [hstep]
      obtain ⟨hmem, hbound⟩ := foldl_maxStep_spec rest m
      constructor
      · rcases hmem with hmem | ⟨m', hm', hmm⟩
        · exact Or.inl hmem
        · exact Or.inr ⟨m', hm', by simp [hmm]⟩
      · intro m' hm'
        obtain ⟨hv, hrest⟩ := hbound m' hm'
        refine ⟨hv, ?_⟩
        intro x hx
        rcases List.mem_cons.mp hx with hx | hx
        · exact hx ▸ svLe_trans (semverLtB_false_iff.mp h) hv
        · exact hrest x hx

theorem maxSatisfying_eq_none_iff {vs : List SemVer} {r : DepRange} :
    maxSatisfying vs r = none ↔ vs.filter r.sat = [] := by
  unfold maxSatisfying
  cases hf : vs.filter r.sat with
  | nil => simp
  | cons v rest =>
    simp only [List.foldl_cons, List.cons_ne_nil, iff_false]
    intro hcontra
    have hstep : maxStep none v = some v := rfl
    rw [hstep] at hcontra
    obtain ⟨hmem, _⟩ := foldl_maxStep_spec rest v
    rcases hmem with hmem | ⟨m', hm', _⟩
    · rw [hmem] at hcontra
      cases hcontra
    · rw [hm'] at hcontra
      cases hcontra

theorem maxSatisfying_spec {vs : List SemVer} {r : DepRange} {m : SemVer}
    (h : maxSatisfying vs r = some m) :
    m ∈ vs.filter r.sat ∧ ∀ x ∈ vs.filter r.sat, svLe x m := by
  unfold maxSatisfying at h
  cases hf : vs.filter r.sat with
  | nil => rw [hf] at h; cases h
  | cons v rest =>
    rw [hf, List.foldl_cons] at h
    have hstep : maxStep none v = some v := rfl
    rw [hstep] at h
    obtain ⟨hmem, hbound⟩ := foldl_maxStep_spec rest v
    obtain ⟨hv, hrest⟩ := hbound m h
    constructor
    · rcases hmem with hmem | ⟨m', hm', hmm⟩
      · rw [hmem] at h
        cases h
        simp
      · rw [hm'] at h
        cases h
        simp [hmm]
    · intro x hx
      rcases List.mem_cons.mp hx with hx | hx
      · exact hx ▸ hv
      · exact hrest x hx

theorem resolveVersion_cached {reg : Registry} {name : String} {range : DepRange}
    {s : NetState} {r : Option SemVer}
    (h : assocFind (resolutionKey name range) s.resCache = some r) :
    resolveVersion reg name range s = (r, s) := by
  simp [resolveVersion, h]

theorem resolveVersion_caches (reg : Registry) (name : String) (range : DepRange)
    (s : NetState) :
    assocFind (resolutionKey name range) (resolveVersion reg name range s).2.resCache =
      some (resolveVersion reg name range s).1 := by
  cases hc : assocFind (resolutionKey name range) s.resCache with
  | some r => simp [resolveVersion, hc]
  | none =>
    cases hf : (fetchPackageMetadata reg name s).1 with
    | error e => simp [resolveVersion, hc, hf, assocFind]
    | ok meta => simp [resolveVersion, hc, hf, assocFind]

/-- Second call with the same (name, range) pair: same answer, no state
change at all (in particular no registry work). -/
theorem resolveVersion_idem (reg : Registry) (name : String) (range : DepRange)
    (s : NetState) :
    resolveVersion reg name range (resolveVersion reg name range s).2 =
      resolveVersion reg name range s := by
  have h := resolveVersion_caches reg name range s
  rw [resolveVersion_cached h]

/-- If every candidate of `pre` fails and `v` then succeeds (in the
state threaded through those failures), the loop returns `v`'s result,
independently of whatever candidates would follow. -/
theorem tryCandidates_first_success (reg : Registry) (fuel : Nat) (params : SearchParams)
    (v : SemVer) (tag : Bool) :
    ∀ (pre post : List (SemVer × Bool)) (s : NetState)
      (r : DependencyAnalysisResult) (s₂ : NetState),
      (tryCandidates reg fuel params pre s).1 = noCompatibleResult →
      analyzePackageDependencies reg fuel params.parentPackage v params.childPackage
        params.childMinVersion params.packageRemoved
        (tryCandidates reg fuel params pre s).2 = (r, s₂) →
      r.success = true →
      tryCandidates reg fuel params (pre ++ (v, tag) :: post) s =
        ({ success := true, version := some v,
           message := enhanceMessage r.message (versionTypeTag tag),
           details := r.details }, s₂)
  | [], post, s, r, s₂, hpre, hr, hsucc => by
    have h2 : (tryCandidates reg fuel params [] s).2 = s := rfl
    rw [h2] at hr
    simp only [List.nil_append]
    simp [tryCandidates, hr, hsucc]
  | (c, ct) :: cs, post, s, r, s₂, hpre, hr, hsucc => by
    by_cases hstep :
        (analyzePackageDependencies reg fuel params.parentPackage c params.childPackage
          params.childMinVersion params.packageRemoved s).1.success = true
    · exfalso
      simp [tryCandidates, hstep, noCompatibleResult] at hpre
    · rw [Bool.not_eq_true] at hstep
      have hrw : tryCandidates reg fuel params ((c, ct) :: cs) s =
          tryCandidates reg fuel params cs
            (analyzePackageDependencies reg fuel params.parentPackage c params.childPackage
              params.childMinVersion params.packageRemoved s).2 := by
        simp [tryCandidates, hstep]
      rw [hrw] at hpre hr
      rw [List.cons_append]
      have hgoal := tryCandidates_first_success reg fuel params v tag cs post
        (analyzePackageDependencies reg fuel params.parentPackage c params.childPackage
          params.childMinVersion params.packageRemoved s).2 r s₂ hpre hr hsucc
      simp [tryCandidates, hstep]
      exact hgoal

/-! ## Sorting lemmas -/

theorem sortVersions_sorted (l : List SemVer) : (sortVersions l).Sorted svLe :=
  List.sorted_insertionSort svLe l

theorem sortVersions_perm (l : List SemVer) : (sortVersions l).Perm l :=
  List.perm_insertionSort svLe l

/-- Filtering commutes with the candidate sort (semver ordering is
antisymmetric on our build-metadata-free versions). -/
theorem filter_sortVersions (p : SemVer → Bool) (l : List SemVer) :
    (sortVersions l).filter p = sortVersions (l.filter p) := by
  exact List.eq_of_perm_of_sorted
    (((sortVersions_perm l).filter p).trans (sortVersions_perm (l.filter p)).symm)
    ((sortVersions_sorted l).filter p) (sortVersions_sorted (l.filter p))

/-- Extending the processed-node log with a fresh key preserves the two
bookkeeping facts the traversal maintains: every logged key is visited,
and logged keys are distinct. -/
theorem traceInv_extend {trace : List TraceEntry} {visited : List String}
    (h1 : ∀ e ∈ trace, nodeKey e.nodeName e.nodeVersion ∈ visited)
    (h2 : (trace.map fun e => nodeKey e.nodeName e.nodeVersion).Nodup)
    (entry : TraceEntry)
    (hkey : nodeKey entry.nodeName entry.nodeVersion ∉ visited) :
    (∀ e ∈ trace ++ [entry], nodeKey e.nodeName e.nodeVersion ∈
      nodeKey entry.nodeName entry.nodeVersion :: visited) ∧
    ((trace ++ [entry]).map fun e => nodeKey e.nodeName e.nodeVersion).Nodup := by
  constructor
  · intro e he
    rcases List.mem_append.mp he with he | he
    · exact List.mem_cons_of_mem _ (h1 e he)
    · simp only [List.mem_singleton] at he
      subst he
      exact List.mem_cons_self _ _
  · rw [List.map_append]
    refine List.Nodup.append h2 (by simp) ?_
    intro a ha hb
    simp only [List.map_cons, List.map_nil, List.mem_singleton] at hb
    subst hb
    rcases List.mem_map.mp ha with ⟨e, he, hke⟩
    exact hkey (hke ▸ h1 e he)

/-- Invariant of the breadth-first loop: the processed-node log never
repeats a `name@version` key, and a processed node carrying the target
name is logged as a match with no expansion. -/
theorem bfsLoop_inv (reg : Registry) (target : String) (maxn : Nat) :
    ∀ (fuel : Nat) (queue : List QNode) (visited : List String)
      (occs : List Occurrence) (trace : List TraceEntry) (s : NetState),
      (∀ e ∈ trace, nodeKey e.nodeName e.nodeVersion ∈ visited) →
      ((trace.map fun e => nodeKey e.nodeName e.nodeVersion).Nodup) →
      (∀ e ∈ trace, e.nodeName = target → e.expanded = [] ∧ e.isMatch = true) →
      (((bfsLoop reg target maxn fuel queue visited occs trace s).2.1.map
          fun e => nodeKey e.nodeName e.nodeVersion).Nodup ∧
        ∀ e ∈ (bfsLoop reg target maxn fuel queue visited occs trace s).2.1,
          e.nodeName = target → e.expanded = [] ∧ e.isMatch = true)
  | 0, _, _, _, _, _, _, h2, h3 => ⟨h2, h3⟩
  | _ + 1, [], _, _, _, _, _, h2, h3 => ⟨h2, h3⟩
  | fuel + 1, node :: rest, visited, occs, trace, s, h1, h2, h3 => by
    by_cases hkey : nodeKey node.name node.version ∈ visited
    · simp only [bfsLoop, if_pos hkey]
      exact bfsLoop_inv reg target maxn fuel rest visited occs trace s h1 h2 h3
    · by_cases hcap : maxn < (nodeKey node.name node.version :: visited).length
      · simp only [bfsLoop, if_neg hkey, if_pos hcap]
        exact ⟨h2, h3⟩
      · by_cases htgt : node.name = target
        · simp only [bfsLoop, if_neg hkey, if_neg hcap, if_pos htgt]
          have hext := traceInv_extend h1 h2 ⟨node.name, node.version, [], true⟩ hkey
          refine bfsLoop_inv reg target maxn fuel rest _ _ _ s hext.1 hext.2 ?_
          intro e he ht
          rcases List.mem_append.mp he with he | he
          · exact h3 e he ht
          · simp only [List.mem_singleton] at he
            subst he
            exact ⟨rfl, rfl⟩
        · cases hf : (fetchPackageMetadata reg node.name s).1 with
          | error e =>
            simp only [bfsLoop, if_neg hkey, if_neg hcap, if_neg htgt, hf]
            have hext := traceInv_extend h1 h2 ⟨node.name, node.version, [], false⟩ hkey
            refine bfsLoop_inv reg target maxn fuel rest _ _ _ _ hext.1 hext.2 ?_
            intro e he ht
            rcases List.mem_append.mp he with he | he
            · exact h3 e he ht
            · simp only [List.mem_singleton] at he
              subst he
              exact absurd ht htgt
          | ok meta =>
            cases hrec : assocFindV node.version meta.versions with
            | none =>
              simp only [bfsLoop, if_neg hkey, if_neg hcap, if_neg htgt, hf, hrec]
              have hext := traceInv_extend h1 h2 ⟨node.name, node.version, [], false⟩ hkey
              refine bfsLoop_inv reg target maxn fuel rest _ _ _ _ hext.1 hext.2 ?_
              intro e he ht
              rcases List.mem_append.mp he with he | he
              · exact h3 e he ht
              · simp only [List.mem_singleton] at he
                subst he
                exact absurd ht htgt
            | some pkg =>
              simp only [bfsLoop, if_neg hkey, if_neg hcap, if_neg htgt, hf, hrec]
              have hext := traceInv_extend h1 h2
                ⟨node.name, node.version,
                  (resolveDeps reg node (mergeDeps pkg.dependencies pkg.optionalDependencies)
                    (fetchPackageMetadata reg node.name s).2).1, false⟩ hkey
              refine bfsLoop_inv reg target maxn fuel _ _ _ _ _ hext.1 hext.2 ?_
              intro e he ht
              rcases List.mem_append.mp he with he | he
              · exact h3 e he ht
              · simp only [List.mem_singleton] at he
                subst he
                exact absurd ht htgt

/-! ## Claim theorems -/

/-- Success of the evaluator depends only on emptiness of the occurrence
list and the version analysis, never on `visitedCount` or `truncated`. -/
theorem analyzeFromTraversal_success_eq (occs : List Occurrence) (n : Nat) (t : Bool)
    (pv : SemVer) (child : String) (mvOpt : Option UserVersion) (removed : Bool) :
    (analyzeFromTraversal ⟨occs, n, t⟩ pv child mvOpt removed).success =
      (if occs.isEmpty then removed
       else if removed then
         match mvOpt with
         | some _ => (analyzeVersionRequirements occs child mvOpt).allValid
         | none => false
       else (analyzeVersionRequirements occs child mvOpt).allValid) := by
  unfold analyzeFromTraversal
  cases occs with
  | nil => cases removed <;> simp
  | cons o rest =>
    cases removed with
    | false =>
      simp only [List.map_cons, List.isEmpty_cons, Bool.false_eq_true, if_false]
      by_cases hv : (analyzeVersionRequirements (o :: rest) child mvOpt).allValid = true <;>
        simp [hv]
    | true =>
      cases mvOpt with
      | none => simp
      | some mv =>
        simp only [List.map_cons, List.isEmpty_cons, Bool.false_eq_true, if_false]
        by_cases hv : (analyzeVersionRequirements (o :: rest) child (some mv)).allValid = true <;>
          simp [hv]

/-- C1 counterexample: the evaluator's verdict is not a function of the
occurrences' versions.  With child `cli` and the single occurrence line
`webpack-cli@5.0.0 > cli@1.0.0` (occurrence version 1.0.0) against
minimum 2.0.0, the source's unanchored first-match regex captures the
ancestor hop's 5.0.0, so min-version mode succeeds even though the
occurrence's version 1.0.0 is below the minimum — refuting the claimed
"success iff every occurrence's version is at least V". -/
theorem minVersionMode_example_refuted :
    (analyzeFromTraversal
        ⟨[⟨[("webpack-cli", ⟨5, 0, 0, []⟩), ("cli", ⟨1, 0, 0, []⟩)], ⟨1, 0, 0, []⟩⟩], 2, false⟩
        ⟨5, 0, 0, []⟩ "cli" (some (UserVersion.three 2 0 0 [])) false).success = true ∧
    ¬ svLe (normalizeVersion (UserVersion.three 2 0 0 [])) (⟨1, 0, 0, []⟩ : SemVer) := by
  refine ⟨by decide, by decide⟩

/-- C1 (amended): min-version mode of the compatibility evaluator.  With
`packageRemoved = false` and a (non-empty) minimum version `V`, the
verdict is success exactly when the occurrence set is non-empty and, for
every occurrence, the version the source's unanchored first-match regex
extracts from its path line — the version of the first hop whose name
ends with the child package name; lines with no extractable version are
skipped — is at least `normalizeVersion V` under semver precedence.  The
second conjunct recovers the original reading on non-confusable paths:
when no ancestor hop's name has the child name as a suffix, extraction
returns exactly the occurrence's own version. -/
theorem minVersionMode_success_iff (occs : List Occurrence) (n : Nat) (t : Bool)
    (pv : SemVer) (child : String) (V : UserVersion) :
    ((analyzeFromTraversal ⟨occs, n, t⟩ pv child (some V) false).success = true ↔
      (occs ≠ [] ∧ ∀ o ∈ occs, ∀ w, extractedVersion child o.path = some w →
        svLe (normalizeVersion V) w)) ∧
    (∀ (path : List (String × SemVer)) (ver : SemVer),
      (∀ hop ∈ path, strEndsWith hop.1 child = false) →
      extractedVersion child (path ++ [(child, ver)]) = some ver) := by
  constructor
  · rw [analyzeFromTraversal_success_eq]
    cases occs with
    | nil => simp
    | cons o rest =>
      simp only [List.isEmpty_cons, Bool.false_eq_true, if_false, ne_eq,
        List.cons_ne_nil, not_false_eq_true, true_and]
      exact analyzeVersionRequirements_allValid_iff
  · intro path ver hnone
    induction path with
    | nil => simp [extractedVersion, strEndsWith_self]
    | cons hop rest ih =>
      rw [List.cons_append]
      have hh := hnone hop (List.mem_cons_self hop rest)
      simp only [extractedVersion, hh, Bool.false_eq_true, if_false]
      exact ih (fun h hm => hnone h (List.mem_cons_of_mem _ hm))

/-- C2 counterexample: in removed-OR-min-version mode the same confusable
line defeats the claimed disjunction.  With child `cli`, the non-empty
occurrence set whose only occurrence (version 1.0.0, line
`webpack-cli@5.0.0 > cli@1.0.0`) is below the minimum 2.0.0, the code
still succeeds, because the regex extracts the ancestor's 5.0.0 —
refuting "success iff the set is empty or every occurrence meets the
minimum". -/
theorem removedModes_example_refuted :
    (analyzeFromTraversal
        ⟨[⟨[("webpack-cli", ⟨5, 0, 0, []⟩), ("cli", ⟨1, 0, 0, []⟩)], ⟨1, 0, 0, []⟩⟩], 2, false⟩
        ⟨5, 0, 0, []⟩ "cli" (some (UserVersion.three 2 0 0 [])) true).success = true ∧
    ([⟨[("webpack-cli", ⟨5, 0, 0, []⟩), ("cli", ⟨1, 0, 0, []⟩)], ⟨1, 0, 0, []⟩⟩] :
      List Occurrence) ≠ [] ∧
    ¬ svLe (normalizeVersion (UserVersion.three 2 0 0 [])) (⟨1, 0, 0, []⟩ : SemVer) := by
  refine ⟨by decide, by decide, by decide⟩

/-- C2 (amended): removed modes of the compatibility evaluator.  With
`packageRemoved = true` and no minimum version, success holds exactly for
an empty occurrence set.  With a minimum version `V`, success holds
exactly when the set is empty or every occurrence's regex-extracted
version (the version of the first path hop whose name ends with the
child package name, as in min-version mode; lines with no match are
skipped) meets `V` — so an empty set succeeds regardless of the
threshold, and the extracted version is the occurrence's own version
exactly when no earlier hop's name has the child name as a suffix. -/
theorem removedModes_success_iff (occs : List Occurrence) (n : Nat) (t : Bool)
    (pv : SemVer) (child : String) (V : UserVersion) :
    ((analyzeFromTraversal ⟨occs, n, t⟩ pv child none true).success = true ↔
      occs = []) ∧
    ((analyzeFromTraversal ⟨occs, n, t⟩ pv child (some V) true).success = true ↔
      (occs = [] ∨ ∀ o ∈ occs, ∀ w, extractedVersion child o.path = some w →
        svLe (normalizeVersion V) w)) := by
  constructor
  · rw [analyzeFromTraversal_success_eq]
    cases occs <;> simp
  · rw [analyzeFromTraversal_success_eq]
    cases occs with
    | nil => simp
    | cons o rest =>
      simp only [List.isEmpty_cons, Bool.false_eq_true, if_false, if_true,
        List.cons_ne_nil, false_or]
      exact analyzeVersionRequirements_allValid_iff

/-- C4: the truncation flag is not surfaced.  The evaluator reads only the
occurrence list of the traversal result: two traversals with the same
occurrences but different `visitedCount` / `truncated` values produce
identical analysis results, and the `DependencyAnalysisResult` /
`SearchResult` shapes carry no truncation information at all, so a
"not found" verdict reached under truncation is indistinguishable from an
exhaustive one. -/
theorem truncation_not_surfaced (occs : List Occurrence) (n₁ n₂ : Nat) (t₁ t₂ : Bool)
    (pv : SemVer) (child : String) (mvOpt : Option UserVersion) (removed : Bool) :
    analyzeFromTraversal ⟨occs, n₁, t₁⟩ pv child mvOpt removed =
      analyzeFromTraversal ⟨occs, n₂, t₂⟩ pv child mvOpt removed := rfl

theorem mem_sortVersions {v : SemVer} {l : List SemVer} :
    v ∈ sortVersions l ↔ v ∈ l :=
  (sortVersions_perm l).mem_iff

/-- C3 counterexample: with versions 1.0.0, 1.0.0-beta.1, 0.9.0, 2.0.0 and
floor 1.0.0, the candidate sequence claimed by the specification
(1.0.0, 2.0.0, 1.0.0-beta.1) is not what the code produces: the floor
filter uses semver precedence, under which 1.0.0-beta.1 is below 1.0.0 and
is therefore excluded. -/
theorem candidateOrdering_example_refuted :
    (candidateList
        (sortVersions [⟨1, 0, 0, []⟩, ⟨1, 0, 0, [PreId.str "beta", PreId.num 1]⟩,
          ⟨0, 9, 0, []⟩, ⟨2, 0, 0, []⟩])
        (some (UserVersion.three 1 0 0 []))).map Prod.fst ≠
      [⟨1, 0, 0, []⟩, ⟨2, 0, 0, []⟩, ⟨1, 0, 0, [PreId.str "beta", PreId.num 1]⟩] := by
  decide

/-- C3 (amended): the candidates tried are exactly the versions at or
above the floor under semver precedence (no filter when the floor is
absent), ordered as all stable versions ascending followed by all
pre-release versions ascending; for the versions 1.0.0, 1.0.0-beta.1,
0.9.0, 2.0.0 with floor 1.0.0 the ordered sequence is 1.0.0, 2.0.0 — the
pre-release 1.0.0-beta.1 sits below the floor and is excluded. -/
theorem candidateOrdering_spec (versions : List SemVer) (floor : Option UserVersion) :
    ((candidateList (sortVersions versions) floor).map Prod.fst =
      sortVersions ((versions.filter (floorOkB floor)).filter (fun v => !isPrereleaseB v)) ++
        sortVersions ((versions.filter (floorOkB floor)).filter isPrereleaseB)) ∧
    (∀ v, v ∈ (candidateList (sortVersions versions) floor).map Prod.fst ↔
      (v ∈ versions ∧ floorOkB floor v = true)) ∧
    ((candidateList
        (sortVersions [⟨1, 0, 0, []⟩, ⟨1, 0, 0, [PreId.str "beta", PreId.num 1]⟩,
          ⟨0, 9, 0, []⟩, ⟨2, 0, 0, []⟩])
        (some (UserVersion.three 1 0 0 []))).map Prod.fst =
      [⟨1, 0, 0, []⟩, ⟨2, 0, 0, []⟩]) := by
  have hmain : (candidateList (sortVersions versions) floor).map Prod.fst =
      sortVersions ((versions.filter (floorOkB floor)).filter (fun v => !isPrereleaseB v)) ++
        sortVersions ((versions.filter (floorOkB floor)).filter isPrereleaseB) := by
    unfold candidateList
    rw [List.map_append, List.map_map, List.map_map]
    rw [filter_sortVersions (floorOkB floor) versions,
      filter_sortVersions (fun v => !isPrereleaseB v) (versions.filter (floorOkB floor)),
      filter_sortVersions isPrereleaseB (versions.filter (floorOkB floor))]
    simp [Function.comp_def, List.map_id]
  refine ⟨hmain, ?_, by decide⟩
  intro v
  rw [hmain]
  simp only [List.mem_append, mem_sortVersions, List.mem_filter]
  by_cases hp : isPrereleaseB v = true <;> simp [hp]

/-- C5 counterexample: calling `findCompatibleVersion` directly with
`packageRemoved = false` and an empty `childMinVersion` does not fail
with a validation error and does not skip the search: on a registry where
package a at 1.0.0 depends on c, the search runs (two real fetches) and
returns success with version 1.0.0. -/
theorem findCompatibleVersion_no_validation :
    (findCompatibleVersion regW 20 ⟨"a", none, "c", none, false⟩ initState).1.success = true ∧
    (findCompatibleVersion regW 20 ⟨"a", none, "c", none, false⟩ initState).1.version =
      some ⟨1, 0, 0, []⟩ ∧
    (findCompatibleVersion regW 20 ⟨"a", none, "c", none, false⟩ initState).2.fetchCount = 2 := by
  refine ⟨by decide, by decide, by decide⟩

/-- C5 (amended): the parameter validation lives in the HTTP route
handler, not in `findCompatibleVersion`.  The route rejects a request
without invoking the engine (and with no registry work) exactly when a
package name is missing or when `packageRemoved` is false and
`childMinVersion` is empty; otherwise it runs the engine. -/
theorem routeValidation_spec (reg : Registry) (fuel : Nat) (body : SearchParams)
    (s : NetState) :
    ((body.parentPackage = "" ∨ body.childPackage = "") →
      postSearch reg fuel body s =
        (Except.error "Parent package and child package are required", s)) ∧
    (body.parentPackage ≠ "" → body.childPackage ≠ "" → body.packageRemoved = false →
      body.childMinVersion = none →
      postSearch reg fuel body s =
        (Except.error "Child minimum version is required when package is not marked as removed",
          s)) ∧
    (body.parentPackage ≠ "" → body.childPackage ≠ "" →
      (body.packageRemoved = true ∨ body.childMinVersion ≠ none) →
      postSearch reg fuel body s =
        (Except.ok (findCompatibleVersion reg fuel body s).1,
          (findCompatibleVersion reg fuel body s).2)) := by
  refine ⟨?_, ?_, ?_⟩
  · intro h
    unfold postSearch
    rw [if_pos h]
  · intro h1 h2 h3 h4
    unfold postSearch
    rw [if_neg (by simp [h1, h2]), if_pos (by simp [h3, h4])]
  · intro h1 h2 h3
    unfold postSearch
    rw [if_neg (by simp [h1, h2]), if_neg ?_]
    rcases h3 with h3 | h3 <;> simp [h3, Option.isNone_iff_eq_none]

/-- C5 amended-claim witness: a direct instance of the middle validation
case at a concrete body. -/
theorem routeValidation_spec_witness :
    ("a" : String) ≠ "" ∧ ("c" : String) ≠ "" ∧
    postSearch regW 5 ⟨"a", none, "c", none, false⟩ initState =
      (Except.error "Child minimum version is required when package is not marked as removed",
        initState) :=
  ⟨by decide, by decide,
    (routeValidation_spec regW 5 ⟨"a", none, "c", none, false⟩ initState).2.1
      (by decide) (by decide) rfl rfl⟩

/-- C6: the range resolver.  Outside the memoized case, with the
package's metadata available, `resolveVersion` returns `none` exactly when
no published version satisfies the range; any returned version is a
satisfying version, is the greatest satisfying stable version when one
exists, and otherwise the greatest satisfying version with pre-releases
admitted; and the result is memoized under the exact (name, range) key, so
an immediately repeated call returns the same answer with no state change
and hence no further registry work. -/
theorem rangeResolver_spec (reg : Registry) (name : String) (range : DepRange)
    (s : NetState) (meta : RegistryPackageMeta)
    (hkey : assocFind (resolutionKey name range) s.resCache = none)
    (hfetch : (fetchPackageMetadata reg name s).1 = Except.ok meta) :
    ((resolveVersion reg name range s).1 = none ↔
      (meta.versions.map Prod.fst).filter range.sat = []) ∧
    (∀ m, (resolveVersion reg name range s).1 = some m →
      m ∈ (meta.versions.map Prod.fst).filter range.sat ∧
      (((meta.versions.map Prod.fst).filter range.sat).filter
          (fun v => !isPrereleaseB v) ≠ [] →
        m ∈ ((meta.versions.map Prod.fst).filter range.sat).filter
          (fun v => !isPrereleaseB v) ∧
        ∀ x ∈ ((meta.versions.map Prod.fst).filter range.sat).filter
          (fun v => !isPrereleaseB v), svLe x m) ∧
      (((meta.versions.map Prod.fst).filter range.sat).filter
          (fun v => !isPrereleaseB v) = [] →
        ∀ x ∈ (meta.versions.map Prod.fst).filter range.sat, svLe x m)) ∧
    resolveVersion reg name range (resolveVersion reg name range s).2 =
      resolveVersion reg name range s := by
  have hcomm :
      ((meta.versions.map Prod.fst).filter (fun v => !isPrereleaseB v)).filter range.sat =
        ((meta.versions.map Prod.fst).filter range.sat).filter (fun v => !isPrereleaseB v) := by
    simp only [List.filter_filter]
    exact List.filter_congr (fun v _ => Bool.and_comm _ _)
  have hres : (resolveVersion reg name range s).1 =
      (match maxSatisfying
          ((meta.versions.map Prod.fst).filter (fun v => !isPrereleaseB v)) range with
        | some m => some m
        | none => maxSatisfying (meta.versions.map Prod.fst) range) := by
    simp [resolveVersion, hkey, hfetch]
  refine ⟨?_, ?_, resolveVersion_idem reg name range s⟩
  · rw [hres]
    cases hstable : maxSatisfying
        ((meta.versions.map Prod.fst).filter (fun v => !isPrereleaseB v)) range with
    | some m0 =>
      simp only [reduceCtorEq, false_iff]
      intro hnil
      obtain ⟨hmem, _⟩ := maxSatisfying_spec hstable
      rw [hcomm, hnil] at hmem
      cases hmem
    | none =>
      simp only []
      rw [maxSatisfying_eq_none_iff]
  · intro m hm
    rw [hres] at hm
    cases hstable : maxSatisfying
        ((meta.versions.map Prod.fst).filter (fun v => !isPrereleaseB v)) range with
    | some m0 =>
      rw [hstable] at hm
      simp only [Option.some.injEq] at hm
      subst hm
      obtain ⟨hmem, hbound⟩ := maxSatisfying_spec hstable
      rw [hcomm] at hmem hbound
      refine ⟨List.mem_of_mem_filter hmem, fun _ => ⟨hmem, hbound⟩, ?_⟩
      intro hnil
      rw [hnil] at hmem
      cases hmem
    | none =>
      rw [hstable] at hm
      have hempty : ((meta.versions.map Prod.fst).filter range.sat).filter
          (fun v => !isPrereleaseB v) = [] := by
        rw [← hcomm]
        exact maxSatisfying_eq_none_iff.mp hstable
      obtain ⟨hmem, hbound⟩ := maxSatisfying_spec hm
      refine ⟨hmem, ?_, fun _ => hbound⟩
      intro hne
      exact absurd hempty hne

/-- C6 witness: the resolver on package c with the "major = 1" range from
a fresh state: hypotheses hold and the characterization follows at this
concrete input. -/
theorem rangeResolver_spec_witness :
    assocFind (resolutionKey "c" rangeMaj1) initState.resCache = none ∧
    (fetchPackageMetadata regW "c" initState).1 = Except.ok metaC ∧
    (((resolveVersion regW "c" rangeMaj1 initState).1 = none ↔
        (metaC.versions.map Prod.fst).filter rangeMaj1.sat = []) ∧
      (∀ m, (resolveVersion regW "c" rangeMaj1 initState).1 = some m →
        m ∈ (metaC.versions.map Prod.fst).filter rangeMaj1.sat ∧
        (((metaC.versions.map Prod.fst).filter rangeMaj1.sat).filter
            (fun v => !isPrereleaseB v) ≠ [] →
          m ∈ ((metaC.versions.map Prod.fst).filter rangeMaj1.sat).filter
            (fun v => !isPrereleaseB v) ∧
          ∀ x ∈ ((metaC.versions.map Prod.fst).filter rangeMaj1.sat).filter
            (fun v => !isPrereleaseB v), svLe x m) ∧
        (((metaC.versions.map Prod.fst).filter rangeMaj1.sat).filter
            (fun v => !isPrereleaseB v) = [] →
          ∀ x ∈ (metaC.versions.map Prod.fst).filter rangeMaj1.sat, svLe x m)) ∧
      resolveVersion regW "c" rangeMaj1 (resolveVersion regW "c" rangeMaj1 initState).2 =
        resolveVersion regW "c" rangeMaj1 initState) :=
  ⟨rfl, rfl, rangeResolver_spec regW "c" rangeMaj1 initState metaC rfl rfl⟩

/-- C7: the orchestrator commits to the first success.  If every
candidate of `pre` fails (the loop on `pre` alone returns the exhausted
failure) and the next candidate `v` then succeeds, the loop on
`pre ++ (v, tag) :: post` returns `v`'s success result and the state
reached right after evaluating `v` — an answer independent of `post`, so
no later candidate is traversed or evaluated. -/
theorem orchestrator_short_circuit (reg : Registry) (fuel : Nat) (params : SearchParams)
    (pre post : List (SemVer × Bool)) (v : SemVer) (tag : Bool) (s : NetState)
    (r : DependencyAnalysisResult) (s₂ : NetState)
    (hpre : (tryCandidates reg fuel params pre s).1 = noCompatibleResult)
    (hr : analyzePackageDependencies reg fuel params.parentPackage v params.childPackage
      params.childMinVersion params.packageRemoved
      (tryCandidates reg fuel params pre s).2 = (r, s₂))
    (hsucc : r.success = true) :
    tryCandidates reg fuel params (pre ++ (v, tag) :: post) s =
      ({ success := true, version := some v,
         message := enhanceMessage r.message (versionTypeTag tag),
         details := r.details }, s₂) :=
  tryCandidates_first_success reg fuel params v tag pre post s r s₂ hpre hr hsucc

/-- Parameters of the C7 witness search: parent a, child c at minimum
2.0.0, min-version mode. -/
def pc7 : SearchParams := ⟨"a", none, "c", some (UserVersion.three 2 0 0 []), false⟩

/-- C7 witness: candidate 1.0.0 of package a fails (its c is too old),
candidate 1.1.0 succeeds, and the loop with the further candidate 1.2.0
behind it returns 1.1.0's result. -/
theorem orchestrator_short_circuit_witness :
    (tryCandidates regW 20 pc7 [(⟨1, 0, 0, []⟩, true)] initState).1 = noCompatibleResult ∧
    (analyzePackageDependencies regW 20 "a" ⟨1, 1, 0, []⟩ "c"
      (some (UserVersion.three 2 0 0 [])) false
      (tryCandidates regW 20 pc7 [(⟨1, 0, 0, []⟩, true)] initState).2).1.success = true ∧
    tryCandidates regW 20 pc7
        ([(⟨1, 0, 0, []⟩, true)] ++ (⟨1, 1, 0, []⟩, true) :: [(⟨1, 2, 0, []⟩, true)])
        initState =
      ({ success := true, version := some ⟨1, 1, 0, []⟩,
         message := enhanceMessage
           (analyzePackageDependencies regW 20 "a" ⟨1, 1, 0, []⟩ "c"
             (some (UserVersion.three 2 0 0 [])) false
             (tryCandidates regW 20 pc7 [(⟨1, 0, 0, []⟩, true)] initState).2).1.message
           (versionTypeTag true),
         details := (analyzePackageDependencies regW 20 "a" ⟨1, 1, 0, []⟩ "c"
           (some (UserVersion.three 2 0 0 [])) false
           (tryCandidates regW 20 pc7 [(⟨1, 0, 0, []⟩, true)] initState).2).1.details },
       (analyzePackageDependencies regW 20 "a" ⟨1, 1, 0, []⟩ "c"
         (some (UserVersion.three 2 0 0 [])) false
         (tryCandidates regW 20 pc7 [(⟨1, 0, 0, []⟩, true)] initState).2).2) :=
  ⟨by decide, by decide,
    orchestrator_short_circuit regW 20 pc7 [(⟨1, 0, 0, []⟩, true)] [(⟨1, 2, 0, []⟩, true)]
      ⟨1, 1, 0, []⟩ true initState _ _ (by decide) rfl (by decide)⟩

/-- C8: traversal invariants.  Within one traversal call, the log of
processed nodes never repeats a (name, version) key — cycle and diamond
protection — and a processed node whose name equals the target is
recorded as an occurrence and expands nothing: none of its dependencies
are enqueued. -/
theorem traversal_invariants (reg : Registry) (fuel : Nat) (rootName : String)
    (rootVersion : SemVer) (targetName : String) (s : NetState) :
    (((findChildOccurrencesInTree reg fuel rootName rootVersion targetName s).2.1.map
        fun e => nodeKey e.nodeName e.nodeVersion).Nodup) ∧
    (∀ e ∈ (findChildOccurrencesInTree reg fuel rootName rootVersion targetName s).2.1,
      e.nodeName = targetName → e.expanded = [] ∧ e.isMatch = true) := by
  unfold findChildOccurrencesInTree
  exact bfsLoop_inv reg targetName 3000 fuel _ [] [] [] s (by simp) (by simp) (by simp)

/-- C9: error handling.  A failure fetching the parent's own version list
is caught and reported as a failure `SearchResult` with a descriptive
message (the embedding is a total function, so no exception can escape);
a metadata-fetch failure on an individual dependency node is swallowed:
the node is logged with no expansion and no occurrence, and the loop
continues with the remaining queue. -/
theorem errorHandling_spec :
    (∀ (reg : Registry) (fuel : Nat) (params : SearchParams) (s : NetState) (e : String),
      (fetchPackageMetadata reg params.parentPackage s).1 = Except.error e →
      (findCompatibleVersion reg fuel params s).1 =
        { success := false, version := none,
          message := "Error during search: " ++ e, details := [] }) ∧
    (∀ (reg : Registry) (target : String) (maxn fuel : Nat) (node : QNode)
      (rest : List QNode) (visited : List String) (occs : List Occurrence)
      (trace : List TraceEntry) (s : NetState) (e : String),
      nodeKey node.name node.version ∉ visited →
      ¬ maxn < (nodeKey node.name node.version :: visited).length →
      node.name ≠ target →
      (fetchPackageMetadata reg node.name s).1 = Except.error e →
      bfsLoop reg target maxn (fuel + 1) (node :: rest) visited occs trace s =
        bfsLoop reg target maxn fuel rest (nodeKey node.name node.version :: visited) occs
          (trace ++ [⟨node.name, node.version, [], false⟩])
          (fetchPackageMetadata reg node.name s).2) := by
  constructor
  · intro reg fuel params s e hf
    simp [findCompatibleVersion, hf]
  · intro reg target maxn fuel node rest visited occs trace s e hkey hcap htgt hf
    simp only [bfsLoop, if_neg hkey, if_neg hcap, if_neg htgt, hf]

/-- C9 witness: a registry that knows no package zzz.  The search for
parent zzz fails with the caught fetch error; a traversal node for zzz is
skipped and traversal continues. -/
theorem errorHandling_spec_witness :
    (fetchPackageMetadata regW "zzz" initState).1 =
      Except.error "Failed to fetch metadata for zzz" ∧
    (findCompatibleVersion regW 5 ⟨"zzz", none, "c", some (UserVersion.one 1), false⟩
      initState).1 =
      { success := false, version := none,
        message := "Error during search: Failed to fetch metadata for zzz", details := [] } ∧
    bfsLoop regW "c" 3000 (3 + 1) [⟨"zzz", ⟨1, 0, 0, []⟩, [("zzz", ⟨1, 0, 0, []⟩)]⟩]
        [] [] [] initState =
      bfsLoop regW "c" 3000 3 [] (nodeKey "zzz" ⟨1, 0, 0, []⟩ :: []) []
        ([] ++ [⟨"zzz", ⟨1, 0, 0, []⟩, [], false⟩])
        (fetchPackageMetadata regW "zzz" initState).2 :=
  ⟨rfl,
    errorHandling_spec.1 regW 5 ⟨"zzz", none, "c", some (UserVersion.one 1), false⟩
      initState "Failed to fetch metadata for zzz" rfl,
    errorHandling_spec.2 regW "c" 3000 3 ⟨"zzz", ⟨1, 0, 0, []⟩, [("zzz", ⟨1, 0, 0, []⟩)]⟩
      [] [] [] [] initState "Failed to fetch metadata for zzz"
      (by simp) (by decide) (by decide) rfl⟩

/-- The evaluator with no minimum version and `packageRemoved = false`
succeeds exactly on a non-empty occurrence list: the JavaScript
`minVersion && ...` guard short-circuits, so every occurrence counts as
valid. -/
theorem analyzeFromTraversal_noMin_success (T : TraversalResult) (pv : SemVer)
    (child : String) :
    (analyzeFromTraversal T pv child none false).success = !T.occMatches.isEmpty := by
  obtain ⟨ms, n, t⟩ := T
  rw [analyzeFromTraversal_success_eq]
  cases ms <;> simp [analyzeVersionRequirements_none]

/-- C10: calling the engine directly with `packageRemoved = false` and an
empty `childMinVersion` (bypassing the route's validation) skips the
version comparison entirely: the evaluator succeeds on every non-empty
occurrence set, and the candidate loop therefore returns success with the
first ordered candidate whose tree contains the target at any version. -/
theorem emptyMinVersion_search (occs : List Occurrence) (n : Nat) (t : Bool)
    (pv : SemVer) (child : String) :
    ((analyzeFromTraversal ⟨occs, n, t⟩ pv child none false).success = true ↔ occs ≠ []) ∧
    (∀ (reg : Registry) (fuel : Nat) (params : SearchParams)
      (pre post : List (SemVer × Bool)) (v : SemVer) (tag : Bool) (s : NetState),
      params.packageRemoved = false → params.childMinVersion = none →
      (tryCandidates reg fuel params pre s).1 = noCompatibleResult →
      (findChildOccurrencesInTree reg fuel params.parentPackage v params.childPackage
        (tryCandidates reg fuel params pre s).2).1.occMatches ≠ [] →
      (tryCandidates reg fuel params (pre ++ (v, tag) :: post) s).1.success = true ∧
        (tryCandidates reg fuel params (pre ++ (v, tag) :: post) s).1.version = some v) := by
  constructor
  · rw [analyzeFromTraversal_noMin_success]
    cases occs <;> simp
  · intro reg fuel params pre post v tag s hrem hmin hpre hne
    have hsucc : (analyzePackageDependencies reg fuel params.parentPackage v
        params.childPackage params.childMinVersion params.packageRemoved
        (tryCandidates reg fuel params pre s).2).1.success = true := by
      rw [hrem, hmin]
      show (analyzeFromTraversal
        (findChildOccurrencesInTree reg fuel params.parentPackage v params.childPackage
          (tryCandidates reg fuel params pre s).2).1 v params.childPackage none false).success
          = true
      rw [analyzeFromTraversal_noMin_success]
      cases hms : (findChildOccurrencesInTree reg fuel params.parentPackage v
          params.childPackage (tryCandidates reg fuel params pre s).2).1.occMatches with
      | nil => exact absurd hms hne
      | cons a l => simp
    have heq := tryCandidates_first_success reg fuel params v tag pre post s _ _ hpre rfl hsucc
    rw [heq]
    exact ⟨rfl, rfl⟩

/-- Parameters of the C10 witness search: parent b, child c, no minimum
version, removal not requested. -/
def pc10 : SearchParams := ⟨"b", none, "c", none, false⟩

/-- C10 witness: with no minimum version and removal unchecked, b@1.0.0
(which lacks c) fails, and the loop then commits to b@1.1.0, the first
candidate whose tree contains c at any version. -/
theorem emptyMinVersion_search_witness :
    (tryCandidates regW 20 pc10 [(⟨1, 0, 0, []⟩, true)] initState).1 =
      noCompatibleResult ∧
    (findChildOccurrencesInTree regW 20 "b" ⟨1, 1, 0, []⟩ "c"
      (tryCandidates regW 20 pc10 [(⟨1, 0, 0, []⟩, true)] initState).2).1.occMatches ≠ [] ∧
    (tryCandidates regW 20 pc10
      ([(⟨1, 0, 0, []⟩, true)] ++ (⟨1, 1, 0, []⟩, true) :: []) initState).1.success = true ∧
    (tryCandidates regW 20 pc10
      ([(⟨1, 0, 0, []⟩, true)] ++ (⟨1, 1, 0, []⟩, true) :: []) initState).1.version =
      some ⟨1, 1, 0, []⟩ :=
  ⟨by decide, by decide,
    ((emptyMinVersion_search [] 0 false ⟨0, 0, 0, []⟩ "c").2 regW 20 pc10
      [(⟨1, 0, 0, []⟩, true)] [] ⟨1, 1, 0, []⟩ true initState rfl rfl
      (by decide) (by decide)).1,
    ((emptyMinVersion_search [] 0 false ⟨0, 0, 0, []⟩ "c").2 regW 20 pc10
      [(⟨1, 0, 0, []⟩, true)] [] ⟨1, 1, 0, []⟩ true initState rfl rfl
      (by decide) (by decide)).2⟩
